import Mathlib

/-!
# Verification of the bpfd program manager (`bpfman/src/bpf.rs`)

A shallow embedding of the in-memory state and operations of the bpfd
program manager, together with theorems settling the specification claims.

The embedding follows `src/bpfman/src/bpf.rs` closely:

* `ProgramMap` (a `HashMap<u32, Program>`) is modelled as an association
  list `List (Nat × Program)`.  A `HashMap` has no observable iteration
  order, so the updated map after an in-place mutation is represented by
  any list with the same key/value graph.
* `DispatcherMap` is an association list `List (DispatcherId × Dispatcher)`.
* The map registry (`maps : HashMap<u32, BpfMap>`) is
  `List (Nat × List Nat)` mapping owner id to the `used_by` vector.
* Machine integers (`u32`, `usize`) are modelled as `Nat`; `i32` priority
  as `Int`.  The single subtraction where `usize` underflow matters
  (`remove_multi_attach_program`) is modelled explicitly.
* Fallible external calls (kernel loader, image fetch, filesystem) are
  oracle parameters supplied to the embedded functions; the functions
  thread their outcomes exactly as the Rust `?` / `match` control flow does.
* Types that live outside the core file (`Program`, `Dispatcher`,
  `DispatcherId`, `BpfmanError` from `command.rs` / `multiprog` /
  `errors.rs`) are modelled from the specification's data model (§3, §4.2,
  §4.3, §7); each such definition says so in its doc comment.
-/

namespace Bpfd

/-- Modelled from the spec: direction ∈ {Ingress, Egress} (§3). -/
inductive Direction
  | ingress
  | egress
deriving DecidableEq, Repr

/-- Modelled from the spec: kind ∈ {Xdp, Tc, Tracepoint, Kprobe, Uprobe,
Unsupported} (§3); the tagged variant over program kinds (§9). -/
inductive ProgKind
  | xdp
  | tc
  | tracepoint
  | kprobe
  | uprobe
  | unsupported
deriving DecidableEq, Repr

/-- Modelled from the spec: kprobe/uprobe probe types (`ProbeType` in
`bpfd-api`): kprobe, kretprobe, uprobe, uretprobe. -/
inductive ProbeType
  | kprobeTy
  | kretprobeTy
  | uprobeTy
  | uretprobeTy
deriving DecidableEq, Repr

/-- Modelled from the spec (§4.2): `DispatcherId` is one of
`Xdp(if_index)` and `Tc(if_index, direction)`. -/
inductive DispatcherId
  | xdpDid (ifIndex : Nat)
  | tcDid (ifIndex : Nat) (dir : Direction)
deriving DecidableEq, Repr

/-- The error taxonomy of `errors.rs`, modelled from the spec (§7); the
constructors carried here are the ones `bpf.rs` constructs or matches. -/
inductive BpfmanError
  | invalidInterface
  | invalidAttach (detail : String)
  | bpfFunctionNameNotValid (name : String)
  | dispatcherNotRequired
  | tooManyPrograms
  | containerAttachError (programType : String) (containerPid : Int)
  | unableToPinProgram
  | unableToPinLink
  | unableToPinMap
  | bpfmanProgramDeleteError
  | bpfBytecodeError
  | bpfProgramError
  | error (detail : String)
deriving DecidableEq, Repr

/-- A loaded program.  Modelled from the spec's data model (§3), since
`command.rs` is not part of the core sources: kernel id (set at load),
kind, BPF function name, filter attributes (priority `i32`, position,
`if_index`, direction), attach state as a `Bool` flag (`Detached` = false,
`Attached` = true, the order Rust derives for a two-state flag),
shared-map fields, and the probe attach parameters used by the claims. -/
structure Program where
  kind : ProgKind
  name : String
  id : Option Nat := none
  ifIndex : Option Nat := none
  direction : Option Direction := none
  priority : Int := 0
  attached : Bool := false
  position : Option Nat := none
  mapOwnerId : Option Nat := none
  mapsUsedBy : List Nat := []
  mapPinPath : Option String := none
  retprobe : Bool := false
  offset : Nat := 0
  fnName : Option String := none
deriving DecidableEq, Repr

/-- Modelled from the spec (§3, §4.3): a dispatcher records its revision,
the number of chained extensions, and the interface name. -/
structure Dispatcher where
  revision : Nat
  numExtensions : Nat
  ifName : String := ""
deriving DecidableEq, Repr

/-- Embeds `Dispatcher::next_revision`, modelled from the spec (§4.3):
`old.revision + 1`. -/
def Dispatcher.nextRevision (d : Dispatcher) : Nat := d.revision + 1

/-- Embeds `command::Program::dispatcher_id`, modelled from the spec (§4.2):
XDP programs map to `Xdp(if_index)`, TC programs to
`Tc(if_index, direction)`; other kinds need no dispatcher. -/
def Program.dispatcherIdOf (p : Program) : Option DispatcherId :=
  match p.kind with
  | .xdp => p.ifIndex.map .xdpDid
  | .tc =>
    match p.ifIndex, p.direction with
    | some i, some d => some (.tcDid i d)
    | _, _ => none
  | _ => none

/-! ## Association-list primitives (the `HashMap` operations `bpf.rs` uses) -/

/-- The `HashMap::get` operation on an association list. -/
def alistGet {α β : Type} [DecidableEq α] (k : α) : List (α × β) → Option β
  | [] => none
  | e :: es => if e.1 = k then some e.2 else alistGet k es

/-- The `HashMap::remove` operation on an association list. -/
def alistRemove {α β : Type} [DecidableEq α] (k : α) (l : List (α × β)) :
    List (α × β) :=
  l.filter (fun e => e.1 ≠ k)

/-- The `HashMap::insert` operation on an association list (replaces any binding of the
key). -/
def alistInsert {α β : Type} [DecidableEq α] (k : α) (v : β)
    (l : List (α × β)) : List (α × β) :=
  alistRemove k l ++ [(k, v)]

/-- The `HashMap::contains_key` operation. -/
def alistContains {α β : Type} [DecidableEq α] (k : α) (l : List (α × β)) :
    Bool :=
  (alistGet k l).isSome

/-! ## The three in-memory stores of `BpfManager` -/

/-- The store `ProgramMap.programs : HashMap<u32, Program>`. -/
abbrev ProgramMap := List (Nat × Program)

/-- The store `DispatcherMap.dispatchers : HashMap<DispatcherId, Dispatcher>`. -/
abbrev Dispatchers := List (DispatcherId × Dispatcher)

/-- The store `BpfManager.maps : HashMap<u32, BpfMap>`, where `BpfMap` holds the
`used_by` vector. -/
abbrev MapsRegistry := List (Nat × List Nat)

/-- The in-memory state of `BpfManager` that the claims quantify over. -/
structure BpfState where
  programs : ProgramMap
  dispatchers : Dispatchers
  maps : MapsRegistry
deriving DecidableEq, Repr

/-- Embeds `DispatcherMap::attached_programs`: the number of extensions of the
dispatcher under `did`, `0` if absent (`bpf.rs` lines 186-192). -/
def attached_programs (ds : Dispatchers) (did : DispatcherId) : Nat :=
  match alistGet did ds with
  | some d => d.numExtensions
  | none => 0

/-! ## The ordering key and the stable sort

`add_and_set_program_positions` / `set_program_positions` sort by
`sort_by_key(|b| (b.priority(), b.attached(), b.name()))` (`bpf.rs`
lines 114-120, 146-152).  Rust's `sort_by_key` is a stable ascending sort
under the derived lexicographic order of the tuple; `bool` orders
`false < true` and `String` lexicographically.  We embed the ascending
stable sort as an insertion sort. -/

/-- Rust `bool` order: `false < true`; `boolLe a b` is `a ≤ b`. -/
def boolLe (a b : Bool) : Bool := !a || b

/-- Rust `String` order (`≤`), total lexicographic. -/
def strLe (a b : String) : Bool := !(decide (b < a))

/-- The tuple key `(priority, attached, name)` compared under Rust's
derived lexicographic order. -/
def sort_key_le (a b : Program) : Bool :=
  if a.priority < b.priority then true
  else if b.priority < a.priority then false
  else if a.attached = b.attached then strLe a.name b.name
  else boolLe a.attached b.attached

/-- Stable insertion of `x` into a `le`-sorted list: `x` is placed before
the first element `y` with `le x y`, hence after every strictly smaller
element and before equals inserted earlier — the stable ascending order. -/
def insertLe {α : Type} (le : α → α → Bool) (x : α) : List α → List α
  | [] => [x]
  | y :: ys => if le x y then x :: y :: ys else y :: insertLe le x ys

/-- Stable ascending sort (the semantics of Rust's `sort_by_key`). -/
def sortByLe {α : Type} (le : α → α → Bool) : List α → List α
  | [] => []
  | x :: xs => insertLe le x (sortByLe le xs)

theorem length_insertLe {α : Type} (le : α → α → Bool) (x : α)
    (l : List α) : (insertLe le x l).length = l.length + 1 := by
  induction l with
  | nil => rfl
  | cons y ys ih =>
    simp only [insertLe]
    split
    · simp
    · simp [ih]

theorem length_sortByLe {α : Type} (le : α → α → Bool) (l : List α) :
    (sortByLe le l).length = l.length := by
  induction l with
  | nil => rfl
  | cons x xs ih => simp [sortByLe, length_insertLe, ih]

theorem perm_insertLe {α : Type} (le : α → α → Bool) (x : α) (l : List α) :
    List.Perm (insertLe le x l) (x :: l) := by
  induction l with
  | nil => rfl
  | cons y ys ih =>
    simp only [insertLe]
    split
    · rfl
    · exact (ih.cons y).trans (List.Perm.swap x y ys)

theorem perm_sortByLe {α : Type} (le : α → α → Bool) (l : List α) :
    List.Perm (sortByLe le l) l := by
  induction l with
  | nil => rfl
  | cons x xs ih => exact (perm_insertLe le x (sortByLe le xs)).trans (ih.cons x)

/-! ## Position assignment

`for (i, v) in extensions.iter_mut().enumerate() { v.set_position(i) }`
(`bpf.rs` lines 121-123, 153-155).  The extensions are carried together
with a tag (their `ProgramMap` key, or `none` for the program being
added), which `set_position` does not touch. -/

/-- Assign positions `n, n+1, …` down a tagged list. -/
def assignFrom {α : Type} (n : Nat) :
    List (α × Program) → List (α × Program)
  | [] => []
  | e :: es => (e.1, { e.2 with position := some n }) :: assignFrom (n + 1) es

theorem assignFrom_map_fst {α : Type} (n : Nat) (l : List (α × Program)) :
    (assignFrom n l).map Prod.fst = l.map Prod.fst := by
  induction l generalizing n with
  | nil => rfl
  | cons e es ih => simp [assignFrom, ih]

theorem assignFrom_map_position {α : Type} (n : Nat)
    (l : List (α × Program)) :
    (assignFrom n l).map (fun e => e.2.position)
      = (List.range' n l.length).map some := by
  induction l generalizing n with
  | nil => rfl
  | cons e es ih => simp [assignFrom, List.range', ih]

theorem length_assignFrom {α : Type} (n : Nat) (l : List (α × Program)) :
    (assignFrom n l).length = l.length := by
  induction l generalizing n with
  | nil => rfl
  | cons e es ih => simp [assignFrom, ih]

/-- The filter of `programs_mut` / the position functions: same kind, same
(optional) `if_index`, same (optional) direction (`bpf.rs` lines 85-89,
104-108, 139-143). -/
def hookMatch (k : ProgKind) (ifi : Option Nat) (dir : Option Direction)
    (p : Program) : Bool :=
  decide (p.kind = k) && decide (p.ifIndex = ifi)
    && decide (p.direction = dir)

/-- Embeds `ProgramMap::set_program_positions` (`bpf.rs` lines 130-156): filter
the programs of the hook, sort them by `(priority, attached, name)`,
assign positions `0‥N−1` in place.  The updated `HashMap` is represented
as the untouched entries together with the re-positioned ones. -/
def set_program_positions (k : ProgKind) (ifIndex : Nat)
    (dir : Option Direction) (pm : ProgramMap) : ProgramMap :=
  let m := hookMatch k (some ifIndex) dir
  let matching := pm.filter (fun e => m e.2)
  let others := pm.filter (fun e => !(m e.2))
  others ++ assignFrom 0 (sortByLe (fun a b => sort_key_le a.2 b.2) matching)

/-- The combined extension vector built by
`add_and_set_program_positions` (`bpf.rs` lines 101-112): the hook's
programs from the map, each tagged with its key, plus the program being
loaded, tagged `none` (it has no kernel id yet). -/
def extList (pm : ProgramMap) (prog : Program) :
    List (Option Nat × Program) :=
  (pm.filter (fun e => hookMatch prog.kind prog.ifIndex prog.direction e.2)).map
      (fun e => (some e.1, e.2))
    ++ [(none, prog)]

/-- The extension vector after the sort and the position assignment
(`bpf.rs` lines 114-123). -/
def assignedExt (pm : ProgramMap) (prog : Program) :
    List (Option Nat × Program) :=
  assignFrom 0 (sortByLe (fun a b => sort_key_le a.2 b.2) (extList pm prog))

/-- Embeds `ProgramMap::add_and_set_program_positions` (`bpf.rs` lines 96-124):
the hook's programs from the map, plus the program being loaded (tagged
`none`), are sorted together and re-positioned in place; returns the
updated map and the updated new program. -/
def add_and_set_program_positions (pm : ProgramMap) (prog : Program) :
    ProgramMap × Program :=
  let m := hookMatch prog.kind prog.ifIndex prog.direction
  let others := pm.filter (fun e => !(m e.2))
  let newMatching : ProgramMap :=
    ((assignedExt pm prog).filter (fun e => e.1.isSome)).map
      (fun e => (e.1.getD 0, e.2))
  let newProg :=
    (((assignedExt pm prog).filter (fun e => e.1.isNone)).map Prod.snd).headD
      prog
  (others ++ newMatching, newProg)

/-! ## Filesystem paths (spec §6 layout; the concrete roots live in
`bpfd-api::util::directories`, outside the core sources) -/

/-- Modelled from the spec: the pin root `<RTDIR_FS>`. -/
def RTDIR_FS : String := "/run/bpfd/fs"

/-- Modelled from the spec: the shared-map root `<RTDIR_FS_MAPS>`. -/
def RTDIR_FS_MAPS : String := "/run/bpfd/fs/maps"

/-- Embeds `calc_map_pin_path` (`bpf.rs` lines 1149-1151):
`<RTDIR_FS_MAPS>/<id>`. -/
def calc_map_pin_path (id : Nat) : String :=
  RTDIR_FS_MAPS ++ "/" ++ toString id

/-! ## The map registry: `save_map`, `delete_map`, `rebuild_map_entry` -/

/-- Embeds `Vec::swap_remove(i)`: replace the element at `i` with the last
element and pop. -/
def swapRemove (l : List Nat) (i : Nat) : List Nat :=
  (l.set i (l.getLastD 0)).dropLast

/-- Embeds `Iterator::position(|v| *v == id)`. -/
def listPosition (id : Nat) : List Nat → Option Nat
  | [] => none
  | x :: xs => if x = id then some 0 else (listPosition id xs).map (· + 1)

/-- Embeds `BpfManager::is_map_owner_id_valid` (`bpf.rs` lines 964-974). -/
def is_map_owner_id_valid (maps : MapsRegistry) (mapOwnerId : Nat) :
    Except BpfmanError String :=
  if alistContains mapOwnerId maps then .ok (calc_map_pin_path mapOwnerId)
  else .error (.error "map_owner_id does not exists")

/-- Embeds `BpfManager::save_map` (`bpf.rs` lines 1005-1066).  Returns the
outcome together with the (possibly mutated) state and program: in the
owner branch the registry entry is inserted *before* the `map_pin_path`
check, so a failure there leaves the insertion behind, exactly as the
code does.  `set_maps_used_by` (a store write) is modelled as
infallible; `set_dir_permissions` touches only the filesystem. -/
def save_map (st : BpfState) (prog : Program) (id : Nat)
    (mapOwnerId : Option Nat) :
    Except BpfmanError Unit × BpfState × Program :=
  match mapOwnerId with
  | some m =>
    match alistGet m st.maps with
    | some usedBy =>
      let usedBy := usedBy ++ [id]
      let prog := { prog with mapsUsedBy := usedBy }
      let progs := st.programs.map (fun e =>
        if usedBy.contains e.1 then (e.1, { e.2 with mapsUsedBy := usedBy })
        else e)
      (.ok (),
        { st with maps := alistInsert m usedBy st.maps, programs := progs },
        prog)
    | none => (.error (.error "map_owner_id does not exists"), st, prog)
  | none =>
    let st := { st with maps := alistInsert id [id] st.maps }
    let prog := { prog with mapsUsedBy := [id] }
    match prog.mapPinPath with
    | some _ => (.ok (), st, prog)
    | none =>
      (.error (.error ("map_pin_path should be set for " ++ toString id)),
        st, prog)

/-- Embeds `BpfManager::delete_map` (`bpf.rs` lines 1074-1108).  Here `rmDirOk` is
the outcome of `remove_dir_all` on the map directory (it runs after the
registry entry is removed). -/
def delete_map (rmDirOk : Bool) (st : BpfState) (id : Nat)
    (mapOwnerId : Option Nat) : Except BpfmanError Unit × BpfState :=
  let index := match mapOwnerId with
    | some i => i
    | none => id
  match alistGet index st.maps with
  | none => (.error (.error "map_pin_path does not exists"), st)
  | some usedBy =>
    let usedBy :=
      match listPosition id usedBy with
      | some i => swapRemove usedBy i
      | none => usedBy
    if usedBy.isEmpty then
      let st := { st with maps := alistRemove index st.maps }
      if rmDirOk then (.ok (), st)
      else (.error (.error "cannot delete map dir"), st)
    else
      let progs := st.programs.map (fun e =>
        if usedBy.contains e.1 then (e.1, { e.2 with mapsUsedBy := usedBy })
        else e)
      (.ok (),
        { st with maps := alistInsert index usedBy st.maps,
                  programs := progs })

/-- Embeds `BpfManager::rebuild_map_entry` (`bpf.rs` lines 1110-1142). -/
def rebuild_map_entry (maps : MapsRegistry) (programs : ProgramMap)
    (id : Nat) (prog : Program) : MapsRegistry × ProgramMap × Program :=
  let index := match prog.mapOwnerId with
    | some i => i
    | none => id
  match alistGet index maps with
  | some usedBy =>
    let usedBy := usedBy ++ [id]
    let prog := { prog with mapsUsedBy := usedBy }
    let programs := programs.map (fun e =>
      if usedBy.contains e.1 then (e.1, { e.2 with mapsUsedBy := usedBy })
      else e)
    (alistInsert index usedBy maps, programs, prog)
  | none =>
    (alistInsert index [id] maps, programs, { prog with mapsUsedBy := [id] })

/-! ## `list_programs` -/

/-- The kernel metadata Aya reports for one loaded program. -/
structure KernelProgram where
  progId : Nat
  kname : String
deriving DecidableEq, Repr

/-- The `Unsupported` program synthesized from kernel metadata
(`bpf.rs` lines 857-864): `ProgramData::new` + `set_kernel_info`. -/
def mkUnsupported (k : KernelProgram) : Program :=
  { kind := .unsupported, name := k.kname, id := some k.progId }

/-- Embeds `BpfManager::list_programs` (`bpf.rs` lines 840-869).  The kernel
enumeration is a list of per-entry outcomes (an `Err` entry models both a
failing `loaded_programs()` item and a failing `set_kernel_info`); the
Rust `collect::<Result<Vec<_>,_>>` short-circuits at the first error.
Managed programs are taken (and removed) from the `bpfman_progs` map. -/
def list_programs (pm : ProgramMap) :
    List (Except BpfmanError KernelProgram) →
    Except BpfmanError (List Program)
  | [] => .ok []
  | e :: es =>
    match e with
    | .error err => .error err
    | .ok k =>
      match alistGet k.progId pm with
      | some p => (list_programs (alistRemove k.progId pm) es).map (p :: ·)
      | none => (list_programs pm es).map (mkUnsupported k :: ·)

/-! ## The kprobe branch of `add_single_attach_program` -/

/-- Outcomes of the external calls made on the kprobe path of
`add_single_attach_program` (`bpf.rs` lines 448-689). -/
structure KprobeEnv where
  outerLoadOk : Bool
  fnFound : Bool
  kprobeLoadOk : Bool
  loadedKind : ProbeType
  kernelId : Nat
  attachOk : Bool
  pinLinkOk : Bool
  pinProgOk : Bool
  pinMapsOk : Bool
deriving DecidableEq, Repr

/-- Kernel/filesystem residue produced by one kprobe load attempt:
whether `kprobe.attach` was reached, and the pins created. -/
structure KprobeEffects where
  attachAttempted : Bool
  pins : List String
deriving DecidableEq, Repr

/-- The pin path `<RTDIR_FS>/prog_<id>`. -/
def prog_pin_path (id : Nat) : String :=
  RTDIR_FS ++ "/prog_" ++ toString id

/-- The pin path `<RTDIR_FS>/prog_<id>_link`. -/
def prog_link_pin_path (id : Nat) : String :=
  RTDIR_FS ++ "/prog_" ++ toString id ++ "_link"

/-- Embeds `BpfManager::add_single_attach_program`, kprobe arm (`bpf.rs` lines
448-477 and 517-560, plus the owner-map pinning of lines 659-688).
Every failure inside the arm exits through `return Err(...)` or `?`, so
it leaves the function directly.  The offset guard for kretprobe (lines
523-527) runs before `kprobe.load()` and before any attach or pin. -/
def add_single_attach_kprobe (env : KprobeEnv) (p : Program) :
    Except BpfmanError Nat × Program × KprobeEffects :=
  let eff0 : KprobeEffects := { attachAttempted := false, pins := [] }
  if !env.outerLoadOk then (.error .bpfProgramError, p, eff0)
  else if !env.fnFound then
    (.error (.bpfFunctionNameNotValid p.name), p, eff0)
  else
    let requested : ProbeType :=
      if p.retprobe then .kretprobeTy else .kprobeTy
    if requested = .kretprobeTy ∧ p.offset ≠ 0 then
      (.error (.error "offset not allowed for kretprobe"), p, eff0)
    else if !env.kprobeLoadOk then (.error .bpfProgramError, p, eff0)
    else if requested ≠ env.loadedKind then
      (.error (.error "loaded probe type mismatch"), p, eff0)
    else
      let id := env.kernelId
      let p := { p with id := some id }
      if !env.attachOk then
        (.error .bpfProgramError, p, { attachAttempted := true, pins := [] })
      else if !env.pinLinkOk then
        (.error .unableToPinLink, p, { attachAttempted := true, pins := [] })
      else if !env.pinProgOk then
        (.error .unableToPinProgram, p,
          { attachAttempted := true, pins := [prog_link_pin_path id] })
      else
        let eff : KprobeEffects :=
          { attachAttempted := true,
            pins := [prog_link_pin_path id, prog_pin_path id] }
        match p.mapPinPath with
        | some _ => (.ok id, p, eff)
        | none =>
          let p := { p with mapPinPath := some (calc_map_pin_path id) }
          if env.pinMapsOk then (.ok id, p, eff)
          else (.error .unableToPinMap, p, eff)

/-! ## `rebuild_state`: the persistent-tree loop -/

/-- Decimal digit accumulation for `rustParseU32`. -/
def parseDigitsAux : List Char → Nat → Option Nat
  | [], acc => some acc
  | c :: cs, acc =>
    if c.isDigit then parseDigitsAux cs (acc * 10 + (c.toNat - 48))
    else none

/-- Rust `str::parse::<u32>()`: an optional leading `+`, then one or
more decimal digits, value below `2^32`. -/
def rustParseU32 (s : String) : Option Nat :=
  let cs :=
    match s.data with
    | '+' :: rest => rest
    | cs => cs
  if cs.isEmpty then none
  else
    match parseDigitsAux cs 0 with
    | some n => if n < 2 ^ 32 then some n else none
    | none => none

/-- One persistent tree as `rebuild_state` sees it: its name, the outcome
of `Program::new_from_db`, and the outcome of `set_program_bytes`. -/
structure TreeRec where
  tname : String
  reconstruct : Except Unit Program
  bytesOk : Bool
deriving Repr

/-- The tree-enumeration loop of `BpfManager::rebuild_state` (`bpf.rs`
lines 213-248).  Returns `(completed?, surviving trees, state)`:
a name that does not parse as `u32` is skipped and its tree kept; a
parsed name whose `Program::new_from_db` fails has its tree dropped and
the loop continues; on success `set_program_bytes` runs (its failure
aborts the whole rebuild through `?`), then `rebuild_map_entry`, then the
program is inserted into `ProgramMap`. -/
def rebuild_state_programs : List TreeRec → BpfState →
    Bool × List TreeRec × BpfState
  | [], st => (true, [], st)
  | t :: ts, st =>
    match rustParseU32 t.tname with
    | none =>
      let r := rebuild_state_programs ts st
      (r.1, t :: r.2.1, r.2.2)
    | some id =>
      match t.reconstruct with
      | .error _ => rebuild_state_programs ts st
      | .ok prog =>
        if t.bytesOk then
          let m := rebuild_map_entry st.maps st.programs id prog
          let st' : BpfState :=
            { st with maps := m.1, programs := alistInsert id m.2.2 m.2.1 }
          let r := rebuild_state_programs ts st'
          (r.1, t :: r.2.1, r.2.2)
        else
          (false, t :: ts, st)

/-! ## `add_multi_attach_program`, `add_program`,
`remove_multi_attach_program` -/

/-- A failed `Dispatcher::new` (spec §4.3): the error, the kernel id the
attempt may already have assigned to the program being loaded, and
whether the `program.delete()` cleanup itself fails. -/
structure BuildFail where
  err : BpfmanError
  idAssigned : Option Nat
  deleteFails : Bool
deriving DecidableEq, Repr

/-- Outcomes of the external calls of `add_multi_attach_program`
(`bpf.rs` lines 366-446): the verification load of the extension
bytecode, the function-name lookup, and `Dispatcher::new` (spec-modelled,
§4.3), which on success yields the new dispatcher and the kernel id. -/
structure MultiAttachEnv where
  extLoadOk : Bool
  fnNameValid : Bool
  build : Except BuildFail (Dispatcher × Nat)
deriving Repr

/-- Embeds `BpfManager::add_multi_attach_program` (`bpf.rs` lines 366-446).
The capacity check reads `attached_programs` before any mutation; then
positions are re-assigned (`add_and_set_program_positions`), the old
dispatcher is removed from `DispatcherMap`, and `Dispatcher::new` runs.
On a build failure the program's pins are deleted when a kernel id was
assigned (the delete error replacing the build error if it fails) and the
error propagates — the re-assigned positions and the removed dispatcher
entry are left as they are.  On success the program's `map_pin_path` is
set by the build when it had none (spec §4.3 step 2). -/
def add_multi_attach_program (env : MultiAttachEnv) (st : BpfState)
    (prog : Program) : Except BpfmanError Nat × BpfState × Program :=
  if !env.extLoadOk then (.error .bpfProgramError, st, prog)
  else if !env.fnNameValid then
    (.error (.bpfFunctionNameNotValid prog.name), st, prog)
  else
    match prog.dispatcherIdOf with
    | none => (.error .dispatcherNotRequired, st, prog)
    | some did =>
      if 10 ≤ attached_programs st.dispatchers did then
        (.error .tooManyPrograms, st, prog)
      else
        let a := add_and_set_program_positions st.programs prog
        let pm := a.1
        let prog := a.2
        let ds := alistRemove did st.dispatchers
        match env.build with
        | .ok (d, id) =>
          let prog :=
            { prog with
              id := some id,
              attached := true,
              mapPinPath := (match prog.mapPinPath with
                | some p => some p
                | none => some (calc_map_pin_path id)) }
          (.ok id,
            { st with programs := pm, dispatchers := alistInsert did d ds },
            prog)
        | .error bf =>
          let prog := { prog with id := bf.idAssigned }
          let e := match bf.idAssigned with
            | some _ =>
              if bf.deleteFails then BpfmanError.bpfmanProgramDeleteError
              else bf.err
            | none => bf.err
          (.error e, { st with programs := pm, dispatchers := ds }, prog)

/-- The tail of `add_program` (`bpf.rs` lines 330-363): clear the program
bytes, then on success `save_map`, `swap_tree` (a store re-key, modelled
as infallible) and the insertion into `ProgramMap`; on failure
`cleanup_map_pin_path`, which only touches the filesystem. -/
def finish_add (st : BpfState) (prog : Program) (mapOwnerId : Option Nat)
    (result : Except BpfmanError Nat) :
    Except BpfmanError Program × BpfState :=
  match result with
  | .ok id =>
    match save_map st prog id mapOwnerId with
    | (.ok _, st, prog) =>
      (.ok prog, { st with programs := alistInsert id prog st.programs })
    | (.error e, st, _) => (.error e, st)
  | .error e => (.error e, st)

/-- Outcomes of the external calls of `add_program` (`bpf.rs` lines
306-364): the bytecode fetch (`set_program_bytes`), the interface lookup
(`get_ifindex`, `none` = `InvalidInterface`), and the two attach paths.
The single-attach path is summarized by its returned kernel id or error;
it mutates none of the manager's in-memory stores. -/
structure AddEnv where
  bytesResult : Except BpfmanError Unit
  ifIndexResult : Option Nat
  multi : MultiAttachEnv
  single : Except BpfmanError Nat
deriving Repr

/-- Embeds `BpfManager::add_program` (`bpf.rs` lines 306-364).  Here `none` models
the `panic!("Cannot add unsupported program")` of line 327; every other
path returns a value.  The `?` on `get_ifindex` (line 320) exits the
function before the result match.  On the single-attach success path the
program's `map_pin_path` is set to its own map directory when it had none
(`bpf.rs` lines 661-665). -/
def add_program (env : AddEnv) (st : BpfState) (prog0 : Program) :
    Option (Except BpfmanError Program × BpfState) :=
  match (match prog0.mapOwnerId with
    | some m =>
      (is_map_owner_id_valid st.maps m).map
        (fun path => { prog0 with mapPinPath := some path })
    | none => .ok prog0) with
  | .error e => some (.error e, st)
  | .ok prog =>
    match env.bytesResult with
    | .error e => some (.error e, st)
    | .ok _ =>
      match prog.kind with
      | .xdp | .tc =>
        match env.ifIndexResult with
        | none => some (.error .invalidInterface, st)
        | some ifi =>
          match add_multi_attach_program env.multi st
              { prog with ifIndex := some ifi } with
          | (result, st1, prog1) =>
            some (finish_add st1 prog1 prog0.mapOwnerId result)
      | .tracepoint | .kprobe | .uprobe =>
        match env.single with
        | .ok id =>
          some (finish_add st
            { prog with
              id := some id,
              mapPinPath := (match prog.mapPinPath with
                | some p => some p
                | none => some (calc_map_pin_path id)) }
            prog0.mapOwnerId (.ok id))
        | .error e => some (finish_add st prog prog0.mapOwnerId (.error e))
      | .unsupported => none

/-- Outcomes of the external calls of `remove_multi_attach_program`:
`old.delete(true)` when the last extension is removed, and
`Dispatcher::new` for the rebuilt dispatcher otherwise. -/
structure RemoveMultiEnv where
  deleteResult : Except BpfmanError Unit
  build : Except BpfmanError Dispatcher
deriving Repr

/-- Embeds `BpfManager::remove_multi_attach_program` (`bpf.rs` lines 721-781).
`none` models divergence: the `usize` underflow of
`attached_programs(&did) - 1` when no dispatcher (or an empty one) is
recorded for `did` (line 732), and the `.unwrap()` on `if_index`
(line 746). -/
def remove_multi_attach_program (env : RemoveMultiEnv) (st : BpfState)
    (prog : Program) : Option (Except BpfmanError Unit × BpfState) :=
  match prog.dispatcherIdOf with
  | none => some (.error .dispatcherNotRequired, st)
  | some did =>
    match attached_programs st.dispatchers did with
    | 0 => none
    | n + 1 =>
      let old := alistGet did st.dispatchers
      let ds := alistRemove did st.dispatchers
      let st := { st with dispatchers := ds }
      if old.isSome && n == 0 then
        some (match env.deleteResult with
          | .ok _ => (.ok (), st)
          | .error e => (.error e, st))
      else
        match prog.ifIndex with
        | none => none
        | some ifi =>
          let pm := set_program_positions prog.kind ifi prog.direction
            st.programs
          match env.build with
          | .ok d =>
            some (.ok (),
              { st with programs := pm,
                        dispatchers := alistInsert did d ds })
          | .error e => some (.error e, { st with programs := pm })

/-! ## Concrete instances used by the claim theorems -/

/-- An already-attached XDP filter on interface 7, priority 50, named
`aaa`, holding position 0. -/
def exAttached : Program where
  kind := .xdp
  name := "aaa"
  id := some 1
  ifIndex := some 7
  priority := 50
  attached := true
  position := some 0

/-- A not-yet-attached XDP filter for interface 7, priority 50, named
`zzz`. -/
def exIncoming : Program where
  kind := .xdp
  name := "zzz"
  ifIndex := some 7
  priority := 50

/-- A manager state holding `exAttached` and its one-extension
dispatcher. -/
def exStC : BpfState where
  programs := [(1, exAttached)]
  dispatchers := [(.xdpDid 7, { revision := 3, numExtensions := 1, ifName := "eth0" })]
  maps := []

/-- A failing `Dispatcher::new` that assigned no kernel id. -/
def exBuildFail : BuildFail where
  err := .bpfProgramError
  idAssigned := none
  deleteFails := false

/-- Oracles for `add_program`: fetch and interface lookup succeed, the
dispatcher build fails. -/
def exEnvBuildFail : AddEnv where
  bytesResult := .ok ()
  ifIndexResult := some 7
  multi := { extLoadOk := true, fnNameValid := true, build := .error exBuildFail }
  single := .error .bpfProgramError

/-- The state left behind by the failing `add_program` of the C2
counterexample: `exAttached` re-positioned, the dispatcher entry gone. -/
def exStAfter : BpfState where
  programs := [(1, { exAttached with position := some 1 })]
  dispatchers := []
  maps := []

/-- Oracles for `add_program`: everything succeeds, the build returns a
two-extension dispatcher and kernel id 55. -/
def exEnvOk : AddEnv where
  bytesResult := .ok ()
  ifIndexResult := some 7
  multi :=
    { extLoadOk := true, fnNameValid := true,
      build := .ok ({ revision := 4, numExtensions := 2, ifName := "eth0" }, 55) }
  single := .ok 55

/-- A state whose XDP dispatcher on interface 7 already chains 10
extensions. -/
def exStFull : BpfState where
  programs := []
  dispatchers := [(.xdpDid 7, { revision := 5, numExtensions := 10, ifName := "eth0" })]
  maps := []

/-- A registry state: program 1 owns a shared map also used by
program 2. -/
def exStShared : BpfState where
  programs := []
  dispatchers := []
  maps := [(1, [1, 2])]

/-- An `Unsupported` program whose `map_owner_id` points at a
non-existent owner. -/
def exUnsupportedOwner : Program where
  kind := .unsupported
  name := "u"
  mapOwnerId := some 99

/-- An `Unsupported` program with no shared-map owner. -/
def exUnsupportedPlain : Program where
  kind := .unsupported
  name := "u"

/-- A kretprobe request with a non-zero offset. -/
def exKretOffset : Program where
  kind := .kprobe
  name := "kp"
  retprobe := true
  offset := 8

/-- Kprobe oracles that all succeed, reporting a plain kprobe and kernel
id 42. -/
def exKprobeEnv : KprobeEnv where
  outerLoadOk := true
  fnFound := true
  kprobeLoadOk := true
  loadedKind := .kprobeTy
  kernelId := 42
  attachOk := true
  pinLinkOk := true
  pinProgOk := true
  pinMapsOk := true

/-- A persistent tree with a non-numeric name. -/
def exTreeText : TreeRec where
  tname := "abc"
  reconstruct := .error ()
  bytesOk := true

/-- A persistent tree named `12` whose reconstruction fails. -/
def exTreeBroken : TreeRec where
  tname := "12"
  reconstruct := .error ()
  bytesOk := true

/-- A persistent tree named `13` whose reconstruction succeeds. -/
def exTreeGood : TreeRec where
  tname := "13"
  reconstruct := .ok { kind := .tracepoint, name := "t" }
  bytesOk := true

/-- Oracles for `remove_multi_attach_program` that succeed. -/
def exRemoveEnv : RemoveMultiEnv where
  deleteResult := .ok ()
  build := .ok { revision := 6, numExtensions := 1, ifName := "eth0" }

/-- A state whose XDP dispatcher on interface 7 chains two extensions. -/
def exStTwo : BpfState where
  programs := []
  dispatchers := [(.xdpDid 7, { revision := 1, numExtensions := 2, ifName := "eth0" })]
  maps := []

/-- The empty manager state. -/
def exStEmpty : BpfState where
  programs := []
  dispatchers := []
  maps := []

/-! ## Lemmas: the sort, the position assignment, association lists -/

theorem mem_assignFrom {α : Type} {x : α × Program} {n : Nat}
    {l : List (α × Program)} (h : x ∈ assignFrom n l) :
    ∃ e ∈ l, ∃ i, x = (e.1, { e.2 with position := some i }) := by
  induction l generalizing n with
  | nil => cases h
  | cons e es ih =>
    simp only [assignFrom, List.mem_cons] at h
    cases h with
    | inl h => exact ⟨e, List.mem_cons_self e es, n, h⟩
    | inr h =>
      obtain ⟨e', he', i, hi⟩ := ih h
      exact ⟨e', List.mem_cons_of_mem _ he', i, hi⟩

theorem hookMatch_set_position (k : ProgKind) (ifi : Option Nat)
    (dir : Option Direction) (p : Program) (x : Option Nat) :
    hookMatch k ifi dir { p with position := x } = hookMatch k ifi dir p :=
  rfl

theorem filter_not_filter {α : Type} (q : α → Bool) (l : List α) :
    (l.filter (fun a => !(q a))).filter q = [] := by
  rw [List.filter_eq_nil_iff]
  intro a ha
  have h := (List.mem_filter.mp ha).2
  simp only [Bool.not_eq_true'] at h
  simp [h]

theorem filter_assignFrom_of_all {α : Type} {q : Program → Bool}
    (hq : ∀ (p : Program) (x : Option Nat), q { p with position := x } = q p)
    {n : Nat} {l : List (α × Program)} (hl : ∀ e ∈ l, q e.2 = true) :
    (assignFrom n l).filter (fun e => q e.2) = assignFrom n l := by
  rw [List.filter_eq_self]
  intro x hx
  obtain ⟨e, he, i, hi⟩ := mem_assignFrom hx
  rw [hi]
  simpa [hq] using hl e he

theorem mem_sortByLe {α : Type} {le : α → α → Bool} {x : α} {l : List α}
    (h : x ∈ sortByLe le l) : x ∈ l :=
  (perm_sortByLe le l).mem_iff.mp h

/-- The matching slice of `set_program_positions`' result is exactly the
sorted, re-positioned slice. -/
theorem filter_set_program_positions (k : ProgKind) (ifi : Nat)
    (dir : Option Direction) (pm : ProgramMap) :
    (set_program_positions k ifi dir pm).filter
        (fun e => hookMatch k (some ifi) dir e.2)
      = assignFrom 0 (sortByLe (fun a b => sort_key_le a.2 b.2)
          (pm.filter (fun e => hookMatch k (some ifi) dir e.2))) := by
  unfold set_program_positions
  rw [List.filter_append, filter_not_filter,
    filter_assignFrom_of_all (fun p x => hookMatch_set_position k (some ifi) dir p x)]
  · rfl
  · intro e he
    exact (List.mem_filter.mp (mem_sortByLe he)).2

/-- The tags of the assigned extension vector are a permutation of the
tags of the input vector. -/
theorem tags_assignedExt_perm (pm : ProgramMap) (prog : Program) :
    List.Perm ((assignedExt pm prog).map Prod.fst)
      ((extList pm prog).map Prod.fst) := by
  unfold assignedExt
  rw [assignFrom_map_fst]
  exact (perm_sortByLe _ _).map Prod.fst

/-- Exactly one entry of the assigned extension vector carries the
`none` tag (the program being added). -/
theorem length_nonePart_assignedExt (pm : ProgramMap) (prog : Program) :
    ((assignedExt pm prog).filter (fun e => e.1.isNone)).length = 1 := by
  rw [← List.countP_eq_length_filter]
  have h1 : List.countP (fun e => e.1.isNone) (assignedExt pm prog)
      = List.countP Option.isNone ((assignedExt pm prog).map Prod.fst) := by
    rw [List.countP_map]
    rfl
  rw [h1, (tags_assignedExt_perm pm prog).countP_eq]
  unfold extList
  rw [List.map_append, List.countP_append, List.map_map, List.countP_map]
  have h2 : (Option.isNone ∘ (Prod.fst ∘ fun e : Nat × Program => ((some e.1 : Option Nat), e.2)))
      = fun _ => false := by
    funext e
    rfl
  rw [h2]
  simp

/-- Every entry of the combined extension vector matches the hook of the
program being added. -/
theorem extList_all_match (pm : ProgramMap) (prog : Program) :
    ∀ e ∈ extList pm prog,
      hookMatch prog.kind prog.ifIndex prog.direction e.2 = true := by
  intro e he
  unfold extList at he
  rcases List.mem_append.mp he with h | h
  · obtain ⟨e', he', rfl⟩ := List.mem_map.mp h
    exact (List.mem_filter.mp he').2
  · rw [List.mem_singleton] at h
    subst h
    simp [hookMatch]

theorem assignedExt_all_match (pm : ProgramMap) (prog : Program) :
    ∀ e ∈ assignedExt pm prog,
      hookMatch prog.kind prog.ifIndex prog.direction e.2 = true := by
  intro e he
  obtain ⟨e', he', i, rfl⟩ := mem_assignFrom he
  rw [hookMatch_set_position]
  exact extList_all_match pm prog e' (mem_sortByLe he')

/-- The matching slice of `add_and_set_program_positions`' updated map is
exactly the `some`-tagged part of the assigned extension vector. -/
theorem filter_add_and_set_program_positions (pm : ProgramMap)
    (prog : Program) :
    (add_and_set_program_positions pm prog).1.filter
        (fun e => hookMatch prog.kind prog.ifIndex prog.direction e.2)
      = ((assignedExt pm prog).filter (fun e => e.1.isSome)).map
          (fun e => (e.1.getD 0, e.2)) := by
  unfold add_and_set_program_positions
  rw [List.filter_append, filter_not_filter, List.filter_map]
  have h : (((fun e : Nat × Program =>
        hookMatch prog.kind prog.ifIndex prog.direction e.2))
        ∘ (fun e : Option Nat × Program => (e.1.getD 0, e.2)))
      = fun e : Option Nat × Program =>
          hookMatch prog.kind prog.ifIndex prog.direction e.2 := by
    funext e
    rfl
  rw [h, List.filter_filter]
  have h2 : (List.filter
        (fun e : Option Nat × Program =>
          hookMatch prog.kind prog.ifIndex prog.direction e.2 && e.1.isSome)
        (assignedExt pm prog))
      = (assignedExt pm prog).filter (fun e => e.1.isSome) := by
    apply List.filter_congr
    intro e he
    rw [assignedExt_all_match pm prog e he]
    simp
  rw [h2, List.nil_append]

theorem length_extList (pm : ProgramMap) (prog : Program) :
    (extList pm prog).length
      = (pm.filter
          (fun e => hookMatch prog.kind prog.ifIndex prog.direction e.2)).length
        + 1 := by
  unfold extList
  rw [List.length_append, List.length_map]
  rfl

/-- C5: for every (kind, if_index, direction), after
`set_program_positions` or `add_and_set_program_positions` the position
values over the N programs sharing the hook are exactly `{0, …, N−1}`:
the matching slice of the updated map (plus, for the add variant, the
program being added) carries the positions `0‥N−1` with no gaps and no
duplicates. -/
theorem C5_positions_form_range :
    (∀ (k : ProgKind) (ifi : Nat) (dir : Option Direction) (pm : ProgramMap),
      ((set_program_positions k ifi dir pm).filter
          (fun e => hookMatch k (some ifi) dir e.2)).map (fun e => e.2.position)
        = (List.range
            (pm.filter (fun e => hookMatch k (some ifi) dir e.2)).length).map
            some)
    ∧ (∀ (pm : ProgramMap) (prog : Program),
      List.Perm
        ((((add_and_set_program_positions pm prog).1.filter
              (fun e => hookMatch prog.kind prog.ifIndex prog.direction e.2)).map
            (fun e => e.2.position))
          ++ [(add_and_set_program_positions pm prog).2.position])
        ((List.range
            ((pm.filter
              (fun e => hookMatch prog.kind prog.ifIndex prog.direction e.2)).length
              + 1)).map some)) := by
  constructor
  · intro k ifi dir pm
    rw [filter_set_program_positions, assignFrom_map_position, length_sortByLe,
      ← List.range_eq_range']
  · intro pm prog
    obtain ⟨e0, he0⟩ :=
      List.length_eq_one.mp (length_nonePart_assignedExt pm prog)
    have hnp : (add_and_set_program_positions pm prog).2 = e0.2 := by
      simp only [add_and_set_program_positions]
      rw [he0]
      rfl
    have hpred : (fun (e : Option Nat × Program) => e.1.isNone)
        = fun e => !(e.1.isSome) := by
      funext e
      cases e.1 <;> rfl
    have hmm : ((((assignedExt pm prog).filter (fun e => e.1.isSome)).map
          (fun e => ((e.1.getD 0 : Nat), e.2))).map (fun e => e.2.position))
        = ((assignedExt pm prog).filter (fun e => e.1.isSome)).map
            (fun e => e.2.position) := by
      rw [List.map_map]
      rfl
    rw [filter_add_and_set_program_positions, hnp, hmm]
    have hsingle : [e0.2.position]
        = ((assignedExt pm prog).filter (fun e => e.1.isNone)).map
            (fun e => e.2.position) := by
      rw [he0]
      rfl
    rw [hsingle, hpred, ← List.map_append]
    have hperm := (List.filter_append_perm
      (fun (e : Option Nat × Program) => e.1.isSome) (assignedExt pm prog)).map
      (fun e => e.2.position)
    apply hperm.trans
    have hpos : (assignedExt pm prog).map (fun e => e.2.position)
        = (List.range'
            0 (pm.filter
              (fun e => hookMatch prog.kind prog.ifIndex prog.direction e.2)).length.succ).map
            some := by
      unfold assignedExt
      rw [assignFrom_map_position, length_sortByLe, length_extList]
    rw [hpos, ← List.range_eq_range']

/-- C1 (failing input): two XDP filter programs share interface 7 at
equal priority 50, one already attached (named `aaa`), one being added
(named `zzz`).  `add_and_set_program_positions` puts the *not yet
attached* program first (position 0) and the already-attached one second
(position 1), because `sort_by_key` orders the `attached` flag
`false < true` — the opposite of the documented tie-break
"already-attached programs first". -/
theorem C1_attached_sorts_last :
    (add_and_set_program_positions [(1, exAttached)] exIncoming).2.position
        = some 0
    ∧ (add_and_set_program_positions [(1, exAttached)] exIncoming).1
        = [(1, { exAttached with position := some 1 })]
    ∧ exAttached.attached = true
    ∧ exIncoming.attached = false
    ∧ exAttached.priority = exIncoming.priority := by
  refine ⟨?_, ?_, rfl, rfl, rfl⟩ <;> rfl

/-- Keys are preserved (as a multiset) by
`add_and_set_program_positions`: the program being added is not inserted
into the map, and no entry is lost. -/
theorem keys_add_and_set_perm (pm : ProgramMap) (prog : Program) :
    List.Perm ((add_and_set_program_positions pm prog).1.map Prod.fst)
      (pm.map Prod.fst) := by
  have hsome : (((assignedExt pm prog).filter (fun e => e.1.isSome)).map
        (fun e => ((e.1.getD 0 : Nat), e.2))).map Prod.fst
      = (((assignedExt pm prog).map Prod.fst).filter Option.isSome).map
          (fun o => o.getD 0) := by
    rw [List.map_map, List.filter_map, List.map_map]
    rfl
  have hext : ((extList pm prog).map Prod.fst).filter Option.isSome
      = (pm.filter
          (fun e => hookMatch prog.kind prog.ifIndex prog.direction e.2)).map
          (fun e => (some e.1 : Option Nat)) := by
    unfold extList
    rw [List.map_append, List.map_map, List.filter_append, List.filter_map]
    have h1 : (Option.isSome ∘ (Prod.fst ∘ fun e : Nat × Program =>
        ((some e.1 : Option Nat), e.2))) = fun _ => true := by
      funext e
      rfl
    have h2 : (Prod.fst ∘ fun e : Nat × Program =>
        ((some e.1 : Option Nat), e.2))
        = fun e : Nat × Program => (some e.1 : Option Nat) := by
      funext e
      rfl
    rw [h1, List.filter_true, h2]
    simp
  have hmid : List.Perm
      ((((assignedExt pm prog).filter (fun e => e.1.isSome)).map
        (fun e => ((e.1.getD 0 : Nat), e.2))).map Prod.fst)
      ((pm.filter
          (fun e => hookMatch prog.kind prog.ifIndex prog.direction e.2)).map
        Prod.fst) := by
    rw [hsome]
    have hperm1 := ((tags_assignedExt_perm pm prog).filter Option.isSome).map
      (fun o : Option Nat => o.getD 0)
    rw [hext, List.map_map] at hperm1
    have h3 : ((fun o : Option Nat => o.getD 0)
        ∘ fun e : Nat × Program => (some e.1 : Option Nat)) = Prod.fst := by
      funext e
      rfl
    rwa [h3] at hperm1
  have hfinal : List.Perm
      ((add_and_set_program_positions pm prog).1.map Prod.fst)
      ((pm.filter (fun e =>
          !(hookMatch prog.kind prog.ifIndex prog.direction e.2))).map Prod.fst
        ++ (pm.filter (fun e =>
            hookMatch prog.kind prog.ifIndex prog.direction e.2)).map
            Prod.fst) := by
    unfold add_and_set_program_positions
    rw [List.map_append]
    exact List.Perm.append_left _ hmid
  apply hfinal.trans
  rw [← List.map_append]
  apply List.Perm.map
  apply (List.perm_append_comm).trans
  exact List.filter_append_perm _ pm

/-- The full case analysis of `add_multi_attach_program`: either it fails
before any mutation (state and program returned untouched), or it fails
in the dispatcher build with the positions re-assigned and the old
dispatcher entry removed, or it succeeds. -/
theorem add_multi_attach_cases (env : MultiAttachEnv) (st : BpfState)
    (prog : Program) :
    (∃ e, add_multi_attach_program env st prog = (.error e, st, prog))
    ∨ (∃ e did q,
        prog.dispatcherIdOf = some did
        ∧ add_multi_attach_program env st prog
            = (.error e,
               { programs := (add_and_set_program_positions st.programs prog).1,
                 dispatchers := alistRemove did st.dispatchers,
                 maps := st.maps },
               q))
    ∨ (∃ id did d q,
        prog.dispatcherIdOf = some did
        ∧ q.mapPinPath.isSome = true
        ∧ add_multi_attach_program env st prog
            = (.ok id,
               { programs := (add_and_set_program_positions st.programs prog).1,
                 dispatchers := alistInsert did d (alistRemove did st.dispatchers),
                 maps := st.maps },
               q)) := by
  unfold add_multi_attach_program
  split
  · exact Or.inl ⟨_, rfl⟩
  split
  · exact Or.inl ⟨_, rfl⟩
  split
  · exact Or.inl ⟨_, rfl⟩
  next did hdid =>
  split
  · exact Or.inl ⟨_, rfl⟩
  split
  next pr d id hpr =>
    refine Or.inr (Or.inr ⟨id, did, d, _, hdid, ?_, rfl⟩)
    cases hmp : (add_and_set_program_positions st.programs prog).2.mapPinPath
      <;> rfl
  next bf hbf =>
    exact Or.inr (Or.inl ⟨_, did, _, hdid, rfl⟩)

/-- On the success path, `finish_add` cannot fail: a validated owner is
still in the registry and an ownerless program has its `map_pin_path`
set. -/
theorem finish_add_of_ok (st : BpfState) (prog : Program) (mo : Option Nat)
    (id : Nat)
    (hmo : ∀ m, mo = some m → alistContains m st.maps = true)
    (hpin : mo = none → prog.mapPinPath.isSome = true) :
    (finish_add st prog mo (.ok id)).1.isOk = true := by
  cases hm : mo with
  | none =>
    have hp := hpin hm
    cases hps : prog.mapPinPath with
    | none => rw [hps] at hp; cases hp
    | some path => simp [finish_add, save_map, hps, Except.isOk, Except.toBool]
  | some m =>
    have hc := hmo m hm
    unfold alistContains at hc
    cases hg : alistGet m st.maps with
    | none => rw [hg] at hc; cases hc
    | some u => simp [finish_add, save_map, hg, Except.isOk, Except.toBool]

/-- C2 (counterexample): `add_program` on state `exStC` with oracles
`exEnvBuildFail` (the dispatcher build fails) returns an error but leaves
a mutated in-memory state: the already-loaded program's position moved
from 0 to 1 and the dispatcher entry was removed, refuting "the in-memory
state is left equal to its value before the call". -/
theorem C2_build_failure_mutates_state :
    add_program exEnvBuildFail exStC { exIncoming with priority := 10 }
      = some (.error .bpfProgramError, exStAfter)
    ∧ exStAfter ≠ exStC
    ∧ (alistGet 1 exStAfter.programs).map Program.position = some (some 1)
    ∧ (alistGet 1 exStC.programs).map Program.position = some (some 0)
    ∧ exStAfter.dispatchers = []
    ∧ exStC.dispatchers ≠ [] := by
  refine ⟨by rfl, by decide, by rfl, by rfl, by rfl, by decide⟩

/-- C2 (amended): on every error path of `add_program` the program is
not inserted into `ProgramMap` (the key multiset is unchanged) and the
map registry is unchanged; every error path other than a dispatcher-build
failure leaves the whole in-memory state untouched, while a
dispatcher-build failure leaves the re-assigned positions of the hook's
programs and the removed dispatcher entry behind. -/
theorem C2_add_program_error_paths (env : AddEnv) (st : BpfState)
    (prog : Program) (e : BpfmanError) (st' : BpfState)
    (h : add_program env st prog = some (.error e, st')) :
    List.Perm (st'.programs.map Prod.fst) (st.programs.map Prod.fst)
    ∧ st'.maps = st.maps
    ∧ (st' = st
        ∨ ∃ (q : Program) (did : DispatcherId),
            st'.programs = (add_and_set_program_positions st.programs q).1
            ∧ st'.dispatchers = alistRemove did st.dispatchers) := by
  unfold add_program at h
  split at h
  · -- owner validation failed
    simp only [Option.some.injEq, Prod.mk.injEq] at h
    rw [← h.2]
    exact ⟨List.Perm.refl _, rfl, Or.inl rfl⟩
  next prog1 hval =>
  have hmo : ∀ m, prog.mapOwnerId = some m →
      alistContains m st.maps = true := by
    intro m hm
    rw [hm] at hval
    cases hc : alistContains m st.maps with
    | true => rfl
    | false => simp [is_map_owner_id_valid, hc, Except.map] at hval
  split at h
  · -- bytecode fetch failed
    simp only [Option.some.injEq, Prod.mk.injEq] at h
    rw [← h.2]
    exact ⟨List.Perm.refl _, rfl, Or.inl rfl⟩
  split at h
  all_goals first
  | -- the XDP/TC filter path
    (split at h
     · simp only [Option.some.injEq, Prod.mk.injEq] at h
       rw [← h.2]
       exact ⟨List.Perm.refl _, rfl, Or.inl rfl⟩
     next ifi hifi =>
       rcases add_multi_attach_cases env.multi st
           { prog1 with ifIndex := some ifi } with
         ⟨e1, hr⟩ | ⟨e1, did, q, hdid, hr⟩ | ⟨id, did, d, q, hdid, hq, hr⟩
       · rw [hr] at h
         simp only [finish_add, Option.some.injEq, Prod.mk.injEq] at h
         rw [← h.2]
         exact ⟨List.Perm.refl _, rfl, Or.inl rfl⟩
       · rw [hr] at h
         simp only [finish_add, Option.some.injEq, Prod.mk.injEq] at h
         rw [← h.2]
         exact ⟨keys_add_and_set_perm st.programs _, rfl,
           Or.inr ⟨_, did, rfl, rfl⟩⟩
       · rw [hr] at h
         have hok := finish_add_of_ok
           { programs := (add_and_set_program_positions st.programs
               { prog1 with ifIndex := some ifi }).1,
             dispatchers := alistInsert did d (alistRemove did st.dispatchers),
             maps := st.maps } q prog.mapOwnerId id
           (by intro m hm; exact hmo m hm)
           (fun _ => hq)
         simp only [Option.some.injEq] at h
         rw [h] at hok
         simp [Except.isOk, Except.toBool] at hok)
  | -- the single-attach path
    (split at h
     next sid hs =>
       have hok := finish_add_of_ok st
         { prog1 with
           id := some sid,
           mapPinPath := (match prog1.mapPinPath with
             | some p => some p
             | none => some (calc_map_pin_path sid)) }
         prog.mapOwnerId sid
         (by intro m hm; exact hmo m hm)
         (by intro _; cases hmp : prog1.mapPinPath <;> simp [hmp])
       simp only [Option.some.injEq] at h
       rw [h] at hok
       simp [Except.isOk, Except.toBool] at hok
     next e1 hs =>
       simp only [finish_add, Option.some.injEq, Prod.mk.injEq] at h
       rw [← h.2]
       exact ⟨List.Perm.refl _, rfl, Or.inl rfl⟩)
  | -- the Unsupported panic arm never returns a value
    cases h

/-- C2 (witness): the amended theorem applied to the concrete failing
run of the counterexample state. -/
theorem C2_add_program_error_paths_witness :
    List.Perm (exStAfter.programs.map Prod.fst)
      (exStC.programs.map Prod.fst)
    ∧ exStAfter.maps = exStC.maps
    ∧ (exStAfter = exStC
        ∨ ∃ (q : Program) (did : DispatcherId),
            exStAfter.programs
              = (add_and_set_program_positions exStC.programs q).1
            ∧ exStAfter.dispatchers = alistRemove did exStC.dispatchers) :=
  C2_add_program_error_paths exEnvBuildFail exStC
    { exIncoming with priority := 10 } .bpfProgramError exStAfter (by rfl)

theorem alistGet_remove_ne {α β : Type} [DecidableEq α] {k k' : α}
    (l : List (α × β)) (h : k' ≠ k) :
    alistGet k' (alistRemove k l) = alistGet k' l := by
  induction l with
  | nil => rfl
  | cons e es ih =>
    by_cases he : e.1 = k
    · have h2 : ¬ e.1 = k' := fun hh => h (hh ▸ he)
      rw [alistRemove, List.filter_cons_of_neg (by simpa using he)]
      rw [show List.filter (fun e : α × β => decide (e.1 ≠ k)) es
        = alistRemove k es from rfl]
      rw [ih, alistGet, if_neg h2]
    · rw [alistRemove, List.filter_cons_of_pos (by simpa using he)]
      rw [show List.filter (fun e : α × β => decide (e.1 ≠ k)) es
        = alistRemove k es from rfl]
      rw [alistGet, alistGet]
      by_cases h3 : e.1 = k'
      · rw [if_pos h3, if_pos h3]
      · rw [if_neg h3, if_neg h3, ih]

/-- C3 (counterexample): one failing kernel entry makes `list_programs`
fail as a whole — the `collect::<Result<…>>` short-circuits — so the
remaining entries are *not* returned, refuting "an error on one kernel
entry never fails the whole listing". -/
theorem C3_one_bad_entry_fails_listing :
    list_programs [] [.ok { progId := 5, kname := "k" },
        .error .bpfProgramError]
      = .error .bpfProgramError := rfl

/-- C3 (amended): when every kernel entry is read successfully,
`list_programs` returns, per entry, the managed `Program` when the
kernel id is in `ProgramMap` and a synthesized `Unsupported` program
otherwise; but an error on any kernel entry fails the whole listing with
that error. -/
theorem C3_list_programs_amended :
    (∀ (pm : ProgramMap) (ks : List KernelProgram),
      (ks.map (fun k => k.progId)).Nodup →
      list_programs pm (ks.map .ok)
        = .ok (ks.map (fun k =>
            match alistGet k.progId pm with
            | some p => p
            | none => mkUnsupported k)))
    ∧ (∀ (pm : ProgramMap) (pre : List KernelProgram) (e : BpfmanError)
        (rest : List (Except BpfmanError KernelProgram)),
      list_programs pm (pre.map .ok ++ .error e :: rest) = .error e) := by
  constructor
  · intro pm ks
    induction ks generalizing pm with
    | nil => intro _; rfl
    | cons k ks ih =>
      intro hnodup
      rw [List.map_cons, List.nodup_cons] at hnodup
      have hne : ∀ k' ∈ ks, k'.progId ≠ k.progId := by
        intro k' hk' hcontra
        exact hnodup.1 (List.mem_map.mpr ⟨k', hk', hcontra⟩)
      rw [List.map_cons, list_programs]
      cases hg : alistGet k.progId pm with
      | some p =>
        rw [ih (alistRemove k.progId pm) hnodup.2]
        rw [List.map_cons, hg]
        have : (ks.map (fun k' =>
            match alistGet k'.progId (alistRemove k.progId pm) with
            | some p => p
            | none => mkUnsupported k'))
            = ks.map (fun k' =>
                match alistGet k'.progId pm with
                | some p => p
                | none => mkUnsupported k') :=
          List.map_congr_left (fun k' hk' => by
            rw [alistGet_remove_ne pm (hne k' hk')])
        rw [this]
        rfl
      | none =>
        rw [ih pm hnodup.2, List.map_cons, hg]
        rfl
  · intro pm pre e rest
    induction pre generalizing pm with
    | nil => rfl
    | cons k pre ih =>
      rw [List.map_cons, List.cons_append, list_programs]
      cases hg : alistGet k.progId pm with
      | some p => rw [ih (alistRemove k.progId pm)]; rfl
      | none => rw [ih pm]; rfl

/-- C3 (witness): the amended theorem at a concrete map and kernel
listing — id 1 is managed, id 5 is synthesized. -/
theorem C3_list_programs_amended_witness :
    list_programs [(1, exAttached)]
        ([({ progId := 1, kname := "a" } : KernelProgram),
          { progId := 5, kname := "k" }].map .ok)
      = .ok [exAttached, mkUnsupported { progId := 5, kname := "k" }] := by
  have h := C3_list_programs_amended.1 [(1, exAttached)]
    [{ progId := 1, kname := "a" }, { progId := 5, kname := "k" }]
    (by decide)
  simpa using h

/-- A program that needs a dispatcher has its `if_index` set. -/
theorem ifIndex_isSome_of_dispatcherIdOf {prog : Program}
    {did : DispatcherId} (h : prog.dispatcherIdOf = some did) :
    ∃ i, prog.ifIndex = some i := by
  unfold Program.dispatcherIdOf at h
  cases hk : prog.kind <;> rw [hk] at h
  case xdp =>
    cases hi : prog.ifIndex
    · rw [hi] at h; cases h
    · exact ⟨_, rfl⟩
  case tc =>
    cases hi : prog.ifIndex with
    | none =>
      rw [hi] at h
      cases hd : prog.direction <;> rw [hd] at h <;> simp at h
    | some i => exact ⟨i, rfl⟩
  all_goals cases h

/-- C4: for a filter-program load that passes the extension-load and
function-name validation, `add_multi_attach_program` returns
`TooManyPrograms` exactly when the dispatcher for the program's
`DispatcherId` already has 10 attached extensions; `attached_programs`
returns 0 when no dispatcher exists; and in the over-capacity case the
state and the program are returned untouched (nothing is attached). -/
theorem C4_too_many_programs (env : MultiAttachEnv) (st : BpfState)
    (prog : Program) (did : DispatcherId)
    (hload : env.extLoadOk = true)
    (hname : env.fnNameValid = true)
    (hdid : prog.dispatcherIdOf = some did)
    (hbuild : ∀ bf, env.build = .error bf → bf.err ≠ .tooManyPrograms) :
    ((add_multi_attach_program env st prog).1 = .error .tooManyPrograms
      ↔ 10 ≤ attached_programs st.dispatchers did)
    ∧ (10 ≤ attached_programs st.dispatchers did →
        add_multi_attach_program env st prog
          = (.error .tooManyPrograms, st, prog))
    ∧ (∀ (ds : Dispatchers) (d : DispatcherId),
        alistGet d ds = none → attached_programs ds d = 0) := by
  have hcap : 10 ≤ attached_programs st.dispatchers did →
      add_multi_attach_program env st prog
        = (.error .tooManyPrograms, st, prog) := by
    intro hc
    simp [add_multi_attach_program, hload, hname, hdid, hc]
  have hnocap : ¬ 10 ≤ attached_programs st.dispatchers did →
      (add_multi_attach_program env st prog).1
        ≠ .error .tooManyPrograms := by
    intro hc
    cases hb : env.build with
    | ok pr =>
      simp [add_multi_attach_program, hload, hname, hdid, hc, hb]
    | error bf =>
      have hne := hbuild bf hb
      cases hia : bf.idAssigned with
      | none =>
        simp [add_multi_attach_program, hload, hname, hdid, hc, hb, hia]
        intro hcontra
        exact hne hcontra
      | some j =>
        cases hdf : bf.deleteFails with
        | true =>
          simp [add_multi_attach_program, hload, hname, hdid, hc, hb, hia,
            hdf]
        | false =>
          simp [add_multi_attach_program, hload, hname, hdid, hc, hb, hia,
            hdf]
          intro hcontra
          exact hne hcontra
  refine ⟨⟨fun h => ?_, fun h => by rw [hcap h]⟩, hcap, ?_⟩
  · by_cases hc : 10 ≤ attached_programs st.dispatchers did
    · exact hc
    · exact absurd h (hnocap hc)
  · intro ds d hg
    unfold attached_programs
    rw [hg]

/-- C4 (witness): the theorem at a dispatcher already chaining 10
extensions — the load fails with `TooManyPrograms` and nothing changes. -/
theorem C4_too_many_programs_witness :
    ((add_multi_attach_program exEnvOk.multi exStFull exIncoming).1
        = .error .tooManyPrograms
      ↔ 10 ≤ attached_programs exStFull.dispatchers (.xdpDid 7))
    ∧ (10 ≤ attached_programs exStFull.dispatchers (.xdpDid 7) →
        add_multi_attach_program exEnvOk.multi exStFull exIncoming
          = (.error .tooManyPrograms, exStFull, exIncoming))
    ∧ (∀ (ds : Dispatchers) (d : DispatcherId),
        alistGet d ds = none → attached_programs ds d = 0) :=
  C4_too_many_programs exEnvOk.multi exStFull exIncoming (.xdpDid 7)
    rfl rfl rfl (fun bf h => by simp [exEnvOk] at h)

/-- C10: `remove_multi_attach_program` computes
`attached_programs(did) - 1` on a `usize`; when `DispatcherMap` holds no
dispatcher under the program's id, `attached_programs` returns 0 and the
subtraction underflows (the model diverges, `none`); when a dispatcher
with at least one extension exists, the operation returns a value. -/
theorem C10_remove_underflow (env : RemoveMultiEnv) (st : BpfState)
    (prog : Program) (did : DispatcherId)
    (hdid : prog.dispatcherIdOf = some did) :
    (alistGet did st.dispatchers = none →
      attached_programs st.dispatchers did = 0
      ∧ remove_multi_attach_program env st prog = none)
    ∧ (∀ d, alistGet did st.dispatchers = some d → 1 ≤ d.numExtensions →
        (remove_multi_attach_program env st prog).isSome = true) := by
  constructor
  · intro h
    have hz : attached_programs st.dispatchers did = 0 := by
      unfold attached_programs
      rw [h]
    exact ⟨hz, by simp [remove_multi_attach_program, hdid, hz]⟩
  · intro d hg hn
    obtain ⟨i, hifi⟩ := ifIndex_isSome_of_dispatcherIdOf hdid
    have ha : attached_programs st.dispatchers did = d.numExtensions := by
      unfold attached_programs
      rw [hg]
    cases hne : d.numExtensions with
    | zero => rw [hne] at hn; omega
    | succ m =>
      cases m with
      | zero =>
        cases hdel : env.deleteResult <;>
          simp [remove_multi_attach_program, hdid, ha, hne, hg, hdel]
      | succ m2 =>
        cases hb : env.build <;>
          simp [remove_multi_attach_program, hdid, ha, hne, hg, hifi, hb]

/-- C10 (witness): the theorem at the empty dispatcher map (underflow)
and at a two-extension dispatcher (defined behavior). -/
theorem C10_remove_underflow_witness :
    (attached_programs exStEmpty.dispatchers (.xdpDid 7) = 0
      ∧ remove_multi_attach_program exRemoveEnv exStEmpty exIncoming = none)
    ∧ (remove_multi_attach_program exRemoveEnv exStTwo exIncoming).isSome
        = true :=
  ⟨(C10_remove_underflow exRemoveEnv exStEmpty exIncoming (.xdpDid 7)
      rfl).1 rfl,
   (C10_remove_underflow exRemoveEnv exStTwo exIncoming (.xdpDid 7)
      rfl).2 { revision := 1, numExtensions := 2, ifName := "eth0" } rfl
      (by decide)⟩

/-- C9 (counterexample): `add_program` called with an `Unsupported`
program whose `map_owner_id` is invalid returns an error value — it does
not panic — refuting "for every invocation with an Unsupported program
the function panics". -/
theorem C9_unsupported_can_return :
    add_program exEnvBuildFail exStEmpty exUnsupportedOwner
      = some (.error (.error "map_owner_id does not exists"), exStEmpty) :=
  rfl

/-- C9 (amended): `add_program` panics (diverges) on an `Unsupported`
program whenever execution reaches the kind dispatch — that is, when the
owner validation and the bytecode fetch succeed — and never returns a
value for one in that case; for the five supported kinds it always
returns a value. -/
theorem C9_unsupported_panics (env : AddEnv) (st : BpfState)
    (prog : Program) :
    (prog.kind = .unsupported →
      (prog.mapOwnerId = none ∨
        ∃ m, prog.mapOwnerId = some m ∧ alistContains m st.maps = true) →
      env.bytesResult = .ok () →
      add_program env st prog = none)
    ∧ (prog.kind ≠ .unsupported →
        (add_program env st prog).isSome = true) := by
  constructor
  · intro hk hmo hb
    rcases hmo with hmo | ⟨m, hmo, hc⟩
    · simp [add_program, hmo, hb, hk]
    · simp [add_program, hmo, is_map_owner_id_valid, hc, Except.map, hb, hk]
  · intro hk
    unfold add_program
    split
    · rfl
    next prog1 hval =>
    have hkind1 : prog1.kind = prog.kind := by
      split at hval
      next m heq =>
        cases hv : is_map_owner_id_valid st.maps m with
        | ok path =>
          rw [hv] at hval
          simp only [Except.map] at hval
          injection hval with hval
          rw [← hval]
        | error e2 =>
          rw [hv] at hval
          simp [Except.map] at hval
      next heq =>
        injection hval with hval
        rw [← hval]
    split
    · rfl
    split
    all_goals first
    | (split <;> rfl)
    | (rename_i heq
       exact absurd (hkind1.symm.trans heq) hk)

/-- C9 (witness): the amended theorem at a plain `Unsupported` program
(diverges) and at a supported XDP program (returns a value). -/
theorem C9_unsupported_panics_witness :
    add_program exEnvOk exStEmpty exUnsupportedPlain = none
    ∧ (add_program exEnvOk exStEmpty exIncoming).isSome = true :=
  ⟨(C9_unsupported_panics exEnvOk exStEmpty exUnsupportedPlain).1 rfl
      (Or.inl rfl) rfl,
   (C9_unsupported_panics exEnvOk exStEmpty exIncoming).2 (by decide)⟩

/-! ## Lemmas: association-list insertion, `swap_remove`, `position` -/

theorem alistGet_append_of_none {α β : Type} [DecidableEq α] (k : α)
    (l1 l2 : List (α × β)) (h : ∀ e ∈ l1, e.1 ≠ k) :
    alistGet k (l1 ++ l2) = alistGet k l2 := by
  induction l1 with
  | nil => rfl
  | cons e es ih =>
    rw [List.cons_append, alistGet,
      if_neg (h e (List.mem_cons_self e es))]
    exact ih (fun e' he' => h e' (List.mem_cons_of_mem _ he'))

theorem alistGet_insert_self {α β : Type} [DecidableEq α] (k : α) (v : β)
    (l : List (α × β)) : alistGet k (alistInsert k v l) = some v := by
  unfold alistInsert
  rw [alistGet_append_of_none]
  · rw [alistGet, if_pos rfl]
  · intro e he
    have := (List.mem_filter.mp he).2
    simpa using this

theorem alistGet_remove_self {α β : Type} [DecidableEq α] (k : α)
    (l : List (α × β)) : alistGet k (alistRemove k l) = none := by
  have h : ∀ e ∈ alistRemove k l, e.1 ≠ k := by
    intro e he
    have := (List.mem_filter.mp he).2
    simpa using this
  rw [show alistRemove k l = alistRemove k l ++ ([] : List (α × β)) by simp]
  exact alistGet_append_of_none k _ [] h

theorem swapRemove_cons_succ (a b : Nat) (l : List Nat) (j : Nat) :
    swapRemove (a :: b :: l) (j + 1) = a :: swapRemove (b :: l) j := by
  cases j <;> rfl

theorem swapRemove_perm (l : List Nat) (i : Nat) (h : i < l.length) :
    List.Perm (swapRemove l i) (l.eraseIdx i) := by
  induction l generalizing i with
  | nil => cases h
  | cons a l ih =>
    cases l with
    | nil =>
      cases i with
      | zero => rfl
      | succ j => simp at h
    | cons b l' =>
      cases i with
      | zero =>
        have hne : (b :: l') ≠ [] := by simp
        show List.Perm ((b :: l').getLast hne :: (b :: l').dropLast) (b :: l')
        have hp := List.perm_append_singleton
          ((b :: l').getLast hne) ((b :: l').dropLast)
        rw [List.dropLast_append_getLast hne] at hp
        exact hp.symm
      | succ j =>
        rw [swapRemove_cons_succ, List.eraseIdx_cons_succ]
        exact (ih j (by simpa using h)).cons a

theorem length_swapRemove (l : List Nat) (i : Nat) :
    (swapRemove l i).length = l.length - 1 := by
  unfold swapRemove
  rw [List.length_dropLast, List.length_set]

theorem not_mem_eraseIdx_of_nodup (l : List Nat) (i : Nat)
    (h : i < l.length) (hnd : l.Nodup) :
    l.get ⟨i, h⟩ ∉ l.eraseIdx i := by
  induction l generalizing i with
  | nil => cases h
  | cons a l ih =>
    cases i with
    | zero =>
      rw [List.eraseIdx_cons_zero]
      exact (List.nodup_cons.mp hnd).1
    | succ j =>
      rw [List.eraseIdx_cons_succ]
      intro hmem
      rcases List.mem_cons.mp hmem with hmem | hmem
      · have hin : l.get ⟨j, by simpa using h⟩ ∈ l := List.get_mem l j _
        rw [show (a :: l).get ⟨j + 1, h⟩ = l.get ⟨j, by simpa using h⟩
          from rfl] at hmem
        rw [hmem] at hin
        exact (List.nodup_cons.mp hnd).1 hin
      · exact ih j (by simpa using h) (List.nodup_cons.mp hnd).2 hmem

theorem listPosition_spec (id : Nat) (l : List Nat) :
    ∀ i, listPosition id l = some i →
      ∃ h : i < l.length, l.get ⟨i, h⟩ = id := by
  induction l with
  | nil => intro i h; cases h
  | cons x xs ih =>
    intro i h
    unfold listPosition at h
    by_cases hx : x = id
    · rw [if_pos hx] at h
      injection h with h
      subst h
      exact ⟨by simp, hx⟩
    · rw [if_neg hx] at h
      cases hp : listPosition id xs with
      | none => rw [hp] at h; cases h
      | some j =>
        rw [hp] at h
        simp only [Option.map] at h
        injection h with h
        subst h
        obtain ⟨hj, hgot⟩ := ih j hp
        exact ⟨by simpa using hj, hgot⟩

theorem listPosition_isSome_of_mem {id : Nat} {l : List Nat}
    (h : id ∈ l) : (listPosition id l).isSome = true := by
  induction l with
  | nil => cases h
  | cons x xs ih =>
    unfold listPosition
    by_cases hx : x = id
    · rw [if_pos hx]
      rfl
    · rw [if_neg hx]
      rcases List.mem_cons.mp h with h1 | h1
      · exact absurd h1.symm hx
      · have hs := ih h1
        cases hp : listPosition id xs with
        | none => rw [hp] at hs; simp at hs
        | some j => rfl

/-- C6 (counterexample): program 1 owns a map also used by program 2
(`used_by = [1, 2]`).  `delete_map 1` (the owner removing itself while a
sharer remains) keeps the registry entry alive but removes the owner
from `used_by`, refuting "the owner's id is a member of used_by while
the registry entry exists / removed only when the map is destroyed". -/
theorem C6_owner_dropped_from_used_by :
    alistGet 1 (delete_map true exStShared 1 none).2.maps = some [2]
    ∧ 1 ∉ ([2] : List Nat)
    ∧ (delete_map true exStShared 1 none).1 = .ok () :=
  ⟨rfl, by decide, rfl⟩

/-- C6 (amended): `save_map` establishes the owner in its own `used_by`
(`[owner]` on creation, preserved when sharers are appended), and
`delete_map id` removes `id` from `used_by[key]` whether or not `id` is
the owner: the registry entry is destroyed exactly when `used_by`
becomes empty, and after removing the owner while another program still
references the map the entry survives with the owner no longer listed. -/
theorem C6_used_by_registry (rmOk : Bool) :
    (∀ (st : BpfState) (prog : Program) (id : Nat),
      alistGet id (save_map st prog id none).2.1.maps = some [id])
    ∧ (∀ (st : BpfState) (prog : Program) (id m : Nat) (u : List Nat),
      alistGet m st.maps = some u → m ∈ u →
      alistGet m (save_map st prog id (some m)).2.1.maps = some (u ++ [id])
      ∧ m ∈ u ++ [id])
    ∧ (∀ (st : BpfState) (id : Nat) (mo : Option Nat) (u : List Nat),
      alistGet (mo.getD id) st.maps = some u → id ∈ u → u.Nodup →
      ((u = [id] →
          alistGet (mo.getD id) (delete_map rmOk st id mo).2.maps = none)
        ∧ (u ≠ [id] →
          ∃ u', alistGet (mo.getD id) (delete_map rmOk st id mo).2.maps
              = some u'
            ∧ id ∉ u' ∧ u' ≠ []))) := by
  refine ⟨?_, ?_, ?_⟩
  · intro st prog id
    cases hmp : prog.mapPinPath <;>
      simp [save_map, hmp, alistGet_insert_self]
  · intro st prog id m u hg hm
    refine ⟨by simp [save_map, hg, alistGet_insert_self], ?_⟩
    exact List.mem_append.mpr (Or.inl hm)
  · intro st id mo u hg hm hnd
    obtain ⟨i, hpos⟩ :=
      Option.isSome_iff_exists.mp (listPosition_isSome_of_mem hm)
    obtain ⟨hilt, hgot⟩ := listPosition_spec id u i hpos
    have hnotmem : id ∉ swapRemove u i := by
      intro hc
      have hmm := (swapRemove_perm u i hilt).mem_iff.mp hc
      rw [← hgot] at hmm
      exact not_mem_eraseIdx_of_nodup u i hilt hnd hmm
    have hlen2 : u ≠ [id] → 2 ≤ u.length := by
      intro hne
      rcases u with _ | ⟨x, u2⟩
      · cases hm
      · rcases u2 with _ | ⟨y, u3⟩
        · have hx : id = x := by simpa using hm
          exact absurd (by rw [hx]) hne
        · simp
    have hnemp : u ≠ [id] → (swapRemove u i).isEmpty = false := by
      intro hne
      have h2 := hlen2 hne
      rw [show (swapRemove u i).isEmpty
          = decide ((swapRemove u i).length = 0) by
        cases hsw : swapRemove u i <;> simp]
      rw [length_swapRemove]
      simp
      omega
    cases mo with
    | none =>
      simp only [Option.getD_none] at hg ⊢
      constructor
      · intro huid
        subst huid
        have hi0 : i = 0 := by
          cases i with
          | zero => rfl
          | succ j => simp at hilt
        subst hi0
        cases rmOk <;>
          simp [delete_map, hg, hpos, swapRemove, alistGet_remove_self]
      · intro hne
        refine ⟨swapRemove u i, ?_, hnotmem, ?_⟩
        · simp [delete_map, hg, hpos, hnemp hne, alistGet_insert_self]
        · intro hc
          have hq := hnemp hne
          rw [hc] at hq
          simp at hq
    | some m =>
      simp only [Option.getD_some] at hg ⊢
      constructor
      · intro huid
        subst huid
        have hi0 : i = 0 := by
          cases i with
          | zero => rfl
          | succ j => simp at hilt
        subst hi0
        cases rmOk <;>
          simp [delete_map, hg, hpos, swapRemove, alistGet_remove_self]
      · intro hne
        refine ⟨swapRemove u i, ?_, hnotmem, ?_⟩
        · simp [delete_map, hg, hpos, hnemp hne, alistGet_insert_self]
        · intro hc
          have hq := hnemp hne
          rw [hc] at hq
          simp at hq

/-- C6 (witness): the amended theorem at the shared-map state — after the
owner (1) removes itself while program 2 still references the map, the
entry survives without the owner. -/
theorem C6_used_by_registry_witness :
    ∃ u', alistGet 1 (delete_map true exStShared 1 none).2.maps = some u'
      ∧ 1 ∉ u' ∧ u' ≠ [] :=
  ((C6_used_by_registry true).2.2 exStShared 1 none [1, 2] rfl (by decide)
    (by decide)).2 (by decide)

/-- C7: a kretprobe request with a non-zero offset is rejected before
`kprobe.load`, before any attach and before any pin — the effects record
is empty and the program record untouched, for every oracle outcome —
while with retprobe = false the offset guard never rejects: for any
offset, the load proceeds and (when the external calls succeed) returns
the kernel id. -/
theorem C7_kretprobe_rejects_offset (env : KprobeEnv) (p : Program) :
    (p.retprobe = true → p.offset ≠ 0 →
      ∃ e, add_single_attach_kprobe env p
        = (.error e, p, { attachAttempted := false, pins := [] }))
    ∧ (p.retprobe = false →
      env.outerLoadOk = true → env.fnFound = true →
      env.kprobeLoadOk = true → env.loadedKind = .kprobeTy →
      env.attachOk = true → env.pinLinkOk = true → env.pinProgOk = true →
      env.pinMapsOk = true →
      (add_single_attach_kprobe env p).1 = .ok env.kernelId) := by
  constructor
  · intro hr ho
    cases hol : env.outerLoadOk with
    | false =>
      exact ⟨.bpfProgramError, by simp [add_single_attach_kprobe, hol]⟩
    | true =>
      cases hfn : env.fnFound with
      | false =>
        exact ⟨.bpfFunctionNameNotValid p.name,
          by simp [add_single_attach_kprobe, hol, hfn]⟩
      | true =>
        refine ⟨.error "offset not allowed for kretprobe", ?_⟩
        simp [add_single_attach_kprobe, hol, hfn, hr, ho]
  · intro hr ho hf hl hk ha hpl hpp hpm
    cases hmp : p.mapPinPath <;>
      simp [add_single_attach_kprobe, ho, hf, hr, hl, hk, ha, hpl, hpp,
        hpm, hmp]

/-- C7 (witness): the theorem at offset 8 with retprobe set (rejected
with no attach and no pins) and with retprobe cleared (accepted,
kernel id 42). -/
theorem C7_kretprobe_rejects_offset_witness :
    (∃ e, add_single_attach_kprobe exKprobeEnv exKretOffset
        = (.error e, exKretOffset, { attachAttempted := false, pins := [] }))
    ∧ (add_single_attach_kprobe exKprobeEnv
          { exKretOffset with retprobe := false }).1
        = .ok exKprobeEnv.kernelId :=
  ⟨(C7_kretprobe_rejects_offset exKprobeEnv exKretOffset).1 rfl (by decide),
   (C7_kretprobe_rejects_offset exKprobeEnv
      { exKretOffset with retprobe := false }).2
      rfl rfl rfl rfl rfl rfl rfl rfl rfl⟩

/-! ## Lemmas: insertion and key-preserving updates of `ProgramMap` -/

theorem alistGet_append {α β : Type} [DecidableEq α] (k : α)
    (l1 l2 : List (α × β)) :
    alistGet k (l1 ++ l2)
      = match alistGet k l1 with
        | some v => some v
        | none => alistGet k l2 := by
  induction l1 with
  | nil => rfl
  | cons e es ih =>
    rw [List.cons_append, alistGet, alistGet]
    by_cases he : e.1 = k
    · rw [if_pos he, if_pos he]
    · rw [if_neg he, if_neg he, ih]

theorem alistGet_insert_ne {α β : Type} [DecidableEq α] {k k2 : α} (v : β)
    (l : List (α × β)) (h : k ≠ k2) :
    alistGet k (alistInsert k2 v l) = alistGet k l := by
  unfold alistInsert
  rw [alistGet_append, @alistGet_remove_ne α β _ k2 k l h]
  cases hg : alistGet k l with
  | some v2 => rfl
  | none =>
    rw [alistGet, if_neg (fun hh => h hh.symm)]
    rfl

theorem alistContains_map_keyfix {k : Nat} (l : ProgramMap)
    (q : Nat → Bool) (f : Program → Program) :
    alistContains k (l.map (fun e => if q e.1 then (e.1, f e.2) else e))
      = alistContains k l := by
  induction l with
  | nil => rfl
  | cons e es ih =>
    rw [List.map_cons]
    unfold alistContains alistGet
    by_cases hq : q e.1 = true
    · rw [hq]
      simp only [if_true]
      by_cases he : e.1 = k
      · rw [if_pos he, if_pos he]
        rfl
      · rw [if_neg he, if_neg he]
        exact ih
    · rw [show q e.1 = false by simpa using hq]
      simp only [Bool.false_eq_true, if_false]
      by_cases he : e.1 = k
      · rw [if_pos he, if_pos he]
      · rw [if_neg he, if_neg he]
        exact ih

/-- The call `rebuild_map_entry` does not change which kernel ids `ProgramMap`
holds. -/
theorem contains_rebuild_map_entry (maps : MapsRegistry)
    (programs : ProgramMap) (id0 : Nat) (prog : Program) (k : Nat) :
    alistContains k (rebuild_map_entry maps programs id0 prog).2.1
      = alistContains k programs := by
  simp only [rebuild_map_entry]
  cases alistGet (match prog.mapOwnerId with
    | some i => i
    | none => id0) maps with
  | some u =>
    exact alistContains_map_keyfix programs
      (fun x => (u ++ [id0]).contains x)
      (fun p => { p with mapsUsedBy := u ++ [id0] })
  | none => rfl

theorem alistContains_insert (k k2 : Nat) (v : Program) (l : ProgramMap) :
    alistContains k (alistInsert k2 v l)
      = if k2 = k then true else alistContains k l := by
  by_cases h : k2 = k
  · rw [if_pos h]
    subst h
    unfold alistContains
    rw [alistGet_insert_self]
    rfl
  · rw [if_neg h]
    unfold alistContains
    rw [alistGet_insert_ne v l (fun hh => h hh.symm)]

/-- Ids already present in `ProgramMap` survive the rest of the rebuild
loop. -/
theorem rebuild_preserves_contains (trees : List TreeRec) (st : BpfState)
    (id : Nat) (h : alistContains id st.programs = true) :
    alistContains id (rebuild_state_programs trees st).2.2.programs
      = true := by
  induction trees generalizing st with
  | nil => exact h
  | cons t ts ih =>
    simp only [rebuild_state_programs]
    cases hp : rustParseU32 t.tname with
    | none => exact ih st h
    | some tid =>
      cases hrec : t.reconstruct with
      | error u => exact ih st h
      | ok prog =>
        cases hb2 : t.bytesOk with
        | false => exact h
        | true =>
          refine ih _ ?_
          show alistContains id (alistInsert tid
            (rebuild_map_entry st.maps st.programs tid prog).2.2
            (rebuild_map_entry st.maps st.programs tid prog).2.1) = true
          rw [alistContains_insert]
          by_cases he : tid = id
          · rw [if_pos he]
          · rw [if_neg he, contains_rebuild_map_entry]
            exact h

/-- C8: the persistent-tree loop of `rebuild_state` (when the bytecode
re-fetch succeeds for every reconstructed program): the rebuild
completes; a tree whose name does not parse as `u32` is kept in the
store and one that parses but fails reconstruction is dropped; every
successfully reconstructed program is inserted into `ProgramMap`; and
every id in the final `ProgramMap` was already loaded or comes from a
parsed, successfully reconstructed tree. -/
theorem C8_rebuild_state (trees : List TreeRec) (st : BpfState)
    (hb : ∀ t ∈ trees, (rustParseU32 t.tname).isSome = true →
      t.reconstruct.isOk = true → t.bytesOk = true) :
    (rebuild_state_programs trees st).1 = true
    ∧ (rebuild_state_programs trees st).2.1
      = trees.filter (fun t =>
          !((rustParseU32 t.tname).isSome && !(t.reconstruct.isOk)))
    ∧ (∀ t ∈ trees, ∀ tid, rustParseU32 t.tname = some tid →
        t.reconstruct.isOk = true →
        alistContains tid (rebuild_state_programs trees st).2.2.programs
          = true)
    ∧ (∀ tid, alistContains tid
          (rebuild_state_programs trees st).2.2.programs = true →
        alistContains tid st.programs = true
        ∨ ∃ t ∈ trees, rustParseU32 t.tname = some tid
            ∧ t.reconstruct.isOk = true) := by
  induction trees generalizing st with
  | nil =>
    exact ⟨rfl, rfl, fun t ht => absurd ht (List.not_mem_nil t),
      fun tid h => Or.inl h⟩
  | cons t ts ih =>
    have hbts : ∀ t2 ∈ ts, (rustParseU32 t2.tname).isSome = true →
        t2.reconstruct.isOk = true → t2.bytesOk = true :=
      fun t2 ht2 => hb t2 (List.mem_cons_of_mem _ ht2)
    simp only [rebuild_state_programs]
    split
    next hp =>
      obtain ⟨ih1, ih2, ih3, ih4⟩ := ih st hbts
      refine ⟨ih1, ?_, ?_, ?_⟩
      · show t :: (rebuild_state_programs ts st).2.1
          = List.filter (fun t2 =>
              !((rustParseU32 t2.tname).isSome && !(t2.reconstruct.isOk)))
            (t :: ts)
        rw [List.filter_cons_of_pos (by simp [hp]), ih2]
      · intro t2 ht2 tid hpt hrt
        rcases List.mem_cons.mp ht2 with rfl | ht2
        · rw [hp] at hpt
          cases hpt
        · exact ih3 t2 ht2 tid hpt hrt
      · intro tid hc
        rcases ih4 tid hc with h1 | ⟨t2, ht2, h2⟩
        · exact Or.inl h1
        · exact Or.inr ⟨t2, List.mem_cons_of_mem _ ht2, h2⟩
    next tid0 hp =>
    split
    next u hrec =>
      obtain ⟨ih1, ih2, ih3, ih4⟩ := ih st hbts
      refine ⟨ih1, ?_, ?_, ?_⟩
      · show (rebuild_state_programs ts st).2.1
          = List.filter (fun t2 =>
              !((rustParseU32 t2.tname).isSome && !(t2.reconstruct.isOk)))
            (t :: ts)
        rw [List.filter_cons_of_neg
          (by simp [hp, hrec, Except.isOk, Except.toBool]), ih2]
      · intro t2 ht2 tid hpt hrt
        rcases List.mem_cons.mp ht2 with rfl | ht2
        · rw [hrec] at hrt
          simp [Except.isOk, Except.toBool] at hrt
        · exact ih3 t2 ht2 tid hpt hrt
      · intro tid hc
        rcases ih4 tid hc with h1 | ⟨t2, ht2, h2⟩
        · exact Or.inl h1
        · exact Or.inr ⟨t2, List.mem_cons_of_mem _ ht2, h2⟩
    next prog hrec =>
    have hbt : t.bytesOk = true :=
      hb t (List.mem_cons_self t ts) (by rw [hp]; rfl) (by rw [hrec]; rfl)
    split
    next hbyes =>
      obtain ⟨ih1, ih2, ih3, ih4⟩ := ih
        { st with
          maps := (rebuild_map_entry st.maps st.programs tid0 prog).1,
          programs := alistInsert tid0
            (rebuild_map_entry st.maps st.programs tid0 prog).2.2
            (rebuild_map_entry st.maps st.programs tid0 prog).2.1 }
        hbts
      refine ⟨ih1, ?_, ?_, ?_⟩
      · show t :: (rebuild_state_programs ts
            { st with
              maps := (rebuild_map_entry st.maps st.programs tid0 prog).1,
              programs := alistInsert tid0
                (rebuild_map_entry st.maps st.programs tid0 prog).2.2
                (rebuild_map_entry st.maps st.programs tid0 prog).2.1 }).2.1
          = List.filter (fun t2 =>
              !((rustParseU32 t2.tname).isSome && !(t2.reconstruct.isOk)))
            (t :: ts)
        rw [List.filter_cons_of_pos
          (by simp [hp, hrec, Except.isOk, Except.toBool]), ih2]
      · intro t2 ht2 tid hpt hrt
        rcases List.mem_cons.mp ht2 with rfl | ht2
        · rw [hp] at hpt
          injection hpt with hpt
          subst hpt
          refine rebuild_preserves_contains ts _ tid0 ?_
          show alistContains tid0 (alistInsert tid0
            (rebuild_map_entry st.maps st.programs tid0 prog).2.2
            (rebuild_map_entry st.maps st.programs tid0 prog).2.1) = true
          rw [alistContains_insert, if_pos rfl]
        · exact ih3 t2 ht2 tid hpt hrt
      · intro tid hc
        rcases ih4 tid hc with h1 | ⟨t2, ht2, h2⟩
        · by_cases he : tid0 = tid
          · subst he
            exact Or.inr ⟨t, List.mem_cons_self t ts, hp,
              by rw [hrec]; rfl⟩
          · replace h1 : alistContains tid st.programs = true := by
              have h3 : alistContains tid (alistInsert tid0
                  (rebuild_map_entry st.maps st.programs tid0 prog).2.2
                  (rebuild_map_entry st.maps st.programs tid0 prog).2.1)
                  = true := h1
              rw [alistContains_insert, if_neg he,
                contains_rebuild_map_entry] at h3
              exact h3
            exact Or.inl h1
        · exact Or.inr ⟨t2, List.mem_cons_of_mem _ ht2, h2⟩
    next hbno => exact absurd hbt (by simpa using hbno)

/-- C8 (witness): the theorem at three concrete trees — a non-numeric
name is kept, a broken numbered tree is dropped, a good one is inserted
into `ProgramMap`. -/
theorem C8_rebuild_state_witness :
    (rebuild_state_programs [exTreeText, exTreeBroken, exTreeGood]
        exStEmpty).1 = true
    ∧ (rebuild_state_programs [exTreeText, exTreeBroken, exTreeGood]
        exStEmpty).2.1
      = [exTreeText, exTreeBroken, exTreeGood].filter (fun t =>
          !((rustParseU32 t.tname).isSome && !(t.reconstruct.isOk)))
    ∧ (∀ t ∈ [exTreeText, exTreeBroken, exTreeGood],
        ∀ tid, rustParseU32 t.tname = some tid →
        t.reconstruct.isOk = true →
        alistContains tid
          (rebuild_state_programs [exTreeText, exTreeBroken, exTreeGood]
            exStEmpty).2.2.programs = true)
    ∧ (∀ tid, alistContains tid
          (rebuild_state_programs [exTreeText, exTreeBroken, exTreeGood]
            exStEmpty).2.2.programs = true →
        alistContains tid exStEmpty.programs = true
        ∨ ∃ t ∈ [exTreeText, exTreeBroken, exTreeGood],
            rustParseU32 t.tname = some tid
            ∧ t.reconstruct.isOk = true) :=
  C8_rebuild_state [exTreeText, exTreeBroken, exTreeGood] exStEmpty
    (by decide)

end Bpfd
